import Mathlib

/-!
# Verification of the humanencoding codec (`src/humanencoding/encoder.py`)

Shallow embedding of the encoder/decoder in `humanencoding/encoder.py`.
Bytes are modelled as `Nat` values (`< 256`); Python byte strings as
`List Nat`; word sequences as `List String`; raised exceptions as
`Except` errors.  The word-list asset (`wordlist_v1`, 65536 words) is not
part of the sources, so the codec is parameterised by the word list and
the word-list invariants stated in the specification (65536 unique
lowercase words, reserved tokens excluded) appear as hypotheses; a
concrete word list satisfying them is constructed for witnesses.
-/

set_option maxHeartbeats 1000000
set_option maxRecDepth 16384

namespace HumanEncoding

/-! ## Constants from encoder.py -/

def DEFAULT_WORDLIST_VERSION : Nat := 1
def CHECKSUM_WORD : String := "check"
def PADDING_WORD : String := "null"
def WORDLIST_SIZE : Nat := 65536
def DEFAULT_MAX_ENCODING_BYTES : Nat := 10240
def DEFAULT_MAX_DECODING_WORDS : Nat := 1024

/-- Each distinct `raise` site (or uncaught runtime exception) of the Python
code.  `HumanEncodingError` carriers are tagged by site; `ChecksumError` is
declared in the source but never raised.  `wordlistSizeNameError` and
`invalidChunkNameError` model `raise` statements whose message formatting
references an undefined variable (`words` resp. `word`), so Python actually
raises `NameError` there.  `indexError` models the uncaught `IndexError` of
`words[-1]` on an empty list, `structError` the `struct.error` of packing an
integer that does not fit 16 bits. -/
inductive PyError where
  | invalidWordlistModule : PyError
  | noWordsAttribute : PyError
  | wordlistSizeNameError : PyError
  | dataTooBig : PyError
  | tooManyWords : PyError
  | invalidChunkNameError : PyError
  | structError : PyError
  | invalidWord (w : String) : PyError
  | invalidChecksum : PyError
  | indexError : PyError
deriving DecidableEq, Repr

/-! ## Python string lowering (ASCII), used by `decode` -/

/-- `str.lower` on a single character, restricted to ASCII (the only case the
codec meets: tokens and word-list entries are ASCII). -/
def pyLowerChar (c : Char) : Char :=
  if 'A' ≤ c ∧ c ≤ 'Z' then Char.ofNat (c.toNat + 32) else c

/-- `str(w).lower()` from `decode`, for ASCII strings. -/
def pyLower (s : String) : String := String.mk (s.data.map pyLowerChar)

/-! ## CRC32 (`binascii.crc32`, masked with `0xffffffff` in `_crc32`) -/

/-- One shift step of the reflected CRC-32 (polynomial `0xEDB88320`). -/
def crc32Step (c : Nat) : Nat :=
  if c % 2 = 1 then Nat.xor (c / 2) 3988292384 else c / 2

/-- Iterate `crc32Step`. -/
def crc32Rounds : Nat → Nat → Nat
  | 0, c => c
  | n + 1, c => crc32Rounds n (crc32Step c)

/-- `binascii.crc32`: standard CRC-32 of a byte sequence. -/
def crc32 (data : List Nat) : Nat :=
  Nat.xor (data.foldl (fun c b => crc32Rounds 8 (Nat.xor c b)) 4294967295)
    4294967295

/-- `_crc32(data)`: `crc32(data) & 0xffffffff`. -/
def _crc32 (data : List Nat) : Nat := crc32 data % 4294967296

/-! ## Chunk/word conversion helpers -/

/-- `_bytes_to_int`: `unpack('<H', b)[0]` on a 2-byte chunk `[b0, b1]` —
little-endian, first byte is the low-order byte. -/
def _bytes_to_int (b0 b1 : Nat) : Nat := b0 + 256 * b1

/-- `_chunk_to_word`: index the word list by the chunk value.  On
`IndexError` the `except` branch itself crashes with `NameError`
(`err.format(word)` with `word` undefined). -/
def _chunk_to_word (wl : List String) (b0 b1 : Nat) : Except PyError String :=
  match wl.get? (_bytes_to_int b0 b1) with
  | some w => Except.ok w
  | none => Except.error PyError.invalidChunkNameError

/-- `_int_to_bytes`: `pack('<H', i)` as a 2-byte list. -/
def _int_to_bytes (i : Nat) : List Nat := [i % 256, i / 256 % 256]

/-- `_word_to_chunk`: first index of the word in the word list
(`wordlist.index`), packed little-endian; absent words raise
`HumanEncodingError('Invalid word: ...')`; an index not fitting 16 bits
would make `pack('<H', ...)` raise `struct.error`. -/
def _word_to_chunk (wl : List String) (w : String) : Except PyError (List Nat) :=
  if w ∈ wl then
    if wl.indexOf w < 65536 then Except.ok (_int_to_bytes (wl.indexOf w))
    else Except.error PyError.structError
  else Except.error (PyError.invalidWord w)

/-! ## encode -/

/-- The padding step of `encode`: `if data_len % 2 == 1: binary_data += b'\0'`. -/
def padData (d : List Nat) : List Nat :=
  if d.length % 2 = 1 then d ++ [0] else d

/-- The encoding loop of `encode`: each consecutive 2-byte chunk becomes a
word.  A trailing odd byte cannot occur after padding; it would make
`unpack('<H', ...)` raise `struct.error`. -/
def chunksToWords (wl : List String) : List Nat → Except PyError (List String)
  | [] => Except.ok []
  | [_] => Except.error PyError.structError
  | b0 :: b1 :: rest =>
    match _chunk_to_word wl b0 b1 with
    | Except.error e => Except.error e
    | Except.ok w =>
      match chunksToWords wl rest with
      | Except.error e => Except.error e
      | Except.ok ws => Except.ok (w :: ws)

/-- `encode(binary_data, checksum=..., max_bytes=...)`, producing the token
list (the `return_string=False` form; the string form is these tokens joined
by single spaces).  The word list is already loaded and passed explicitly. -/
def encode (wl : List String) (data : List Nat) (checksum : Bool)
    (maxBytes : Nat) : Except PyError (List String) :=
  if data.length > maxBytes then Except.error PyError.dataTooBig
  else
    match chunksToWords wl (padData data) with
    | Except.error e => Except.error e
    | Except.ok dws =>
      let out1 := if data.length % 2 = 1 then dws ++ [PADDING_WORD] else dws
      if checksum then
        let ck := _crc32 (if data.length % 2 = 1 then (padData data).dropLast
                          else padData data)
        match _chunk_to_word wl (ck % 256) (ck / 256 % 256) with
        | Except.error e => Except.error e
        | Except.ok wlo =>
          match _chunk_to_word wl (ck / 65536 % 256) (ck / 16777216 % 256) with
          | Except.error e => Except.error e
          | Except.ok whi => Except.ok (out1 ++ [CHECKSUM_WORD, wlo, whi])
      else Except.ok out1

/-! ## decode -/

/-- The checksum-stripping step of `decode`:
`if len(words) > 3 and words[-3] == CHECKSUM_WORD: checksum_words = words[-2:]; words = words[:-3]`.
Returns (remaining words, captured checksum words). -/
def checksumSplit (words : List String) : List String × List String :=
  if words.length > 3 ∧ words.get? (words.length - 3) = some CHECKSUM_WORD then
    (words.take (words.length - 3), words.drop (words.length - 2))
  else (words, [])

/-- The decoding loop of `decode`: `for word in words: output += _word_to_chunk(word)`. -/
def wordsToBytes (wl : List String) : List String → Except PyError (List Nat)
  | [] => Except.ok []
  | w :: ws =>
    match _word_to_chunk wl w with
    | Except.error e => Except.error e
    | Except.ok c =>
      match wordsToBytes wl ws with
      | Except.error e => Except.error e
      | Except.ok rest => Except.ok (c ++ rest)

/-- `unpack('<I', b)[0]` on a 4-byte list. -/
def le32 (b : List Nat) : Nat :=
  b.getD 0 0 + 256 * b.getD 1 0 + 65536 * b.getD 2 0 + 16777216 * b.getD 3 0

/-- `decode(words, max_words=...)` on an explicit token list (a string input
is first `split()`; the empty string splits to `[]`).  Mirrors the source
statement by statement; notably `words[-1]` on an empty list raises an
uncaught `IndexError`. -/
def decode (wl : List String) (tokens : List String) (maxWords : Nat) :
    Except PyError (List Nat) :=
  if tokens.length > maxWords then Except.error PyError.tooManyWords
  else
    let words := tokens.map pyLower
    let split := checksumSplit words
    let words1 := split.1
    let checksumWords := split.2
    match words1.getLast? with
    | none => Except.error PyError.indexError
    | some last =>
      let words2 := if last = PADDING_WORD then words1.dropLast else words1
      match wordsToBytes wl words2 with
      | Except.error e => Except.error e
      | Except.ok out0 =>
        let output := if last = PADDING_WORD then out0.dropLast else out0
        match checksumWords with
        | [] => Except.ok output
        | cw0 :: cws =>
          match _word_to_chunk wl cw0 with
          | Except.error e => Except.error e
          | Except.ok cb0 =>
            match cws.head? with
            | none => Except.error PyError.indexError
            | some cw1 =>
              match _word_to_chunk wl cw1 with
              | Except.error e => Except.error e
              | Except.ok cb1 =>
                if le32 (cb0 ++ cb1) = _crc32 output then Except.ok output
                else Except.error PyError.invalidChecksum

/-! ## `lazily_load_wordlist` and the module-level cache

The global `wordlist` starts as `[]` and is reassigned from
`getattr(module, 'words', None)`; the state is `Option (List String)` so the
Python values `None` and a list are both representable. -/

/-- Python truthiness of the global `wordlist` value. -/
def pyTruthy : Option (List String) → Bool
  | none => false
  | some l => !l.isEmpty

/-- What `importlib.import_module('.wordlist_v{version}', ...)` followed by
`getattr(module, 'words', None)` yields per version: `none` when the import
raises, otherwise the module's `words` attribute (or Python `None`). -/
structure ImportEnv where
  modules : Nat → Option (Option (List String))

/-- `lazily_load_wordlist(version)` as a state transformer on the global
`wordlist`.  Note the source assigns the global from the module *before*
validating it, and the wrong-size `raise` crashes with `NameError`
(`err.format(len(words), ...)`, `words` undefined). -/
def lazily_load_wordlist (env : ImportEnv) (version : Nat)
    (st : Option (List String)) : Except PyError Unit × Option (List String) :=
  if pyTruthy st then (Except.ok (), st)
  else
    match env.modules version with
    | none => (Except.error PyError.invalidWordlistModule, st)
    | some attr =>
      if pyTruthy attr then
        if (attr.getD []).length ≠ WORDLIST_SIZE then
          (Except.error PyError.wordlistSizeNameError, attr)
        else (Except.ok (), attr)
      else (Except.error PyError.noWordsAttribute, attr)

/-! ## Caller-visible buffer state of `encode`

`binary_data += b'\0'` rebinds an immutable `bytes` object but mutates a
`bytearray` in place, so the caller's buffer state must be tracked. -/

/-- A caller-supplied buffer: `bytes` (immutable) or `bytearray` (mutable). -/
inductive ByteBuf where
  | bytes (data : List Nat) : ByteBuf
  | bytearray (data : List Nat) : ByteBuf
deriving DecidableEq, Repr

/-- The byte contents of a buffer. -/
def ByteBuf.data : ByteBuf → List Nat
  | bytes d => d
  | bytearray d => d

/-- `encode` together with the final state of the caller's buffer: the
in-place `+=` on a `bytearray` happens exactly when the size guard passed
and the length is odd (it persists even if a later chunk lookup raises). -/
def encodeWithBuffer (wl : List String) (buf : ByteBuf) (checksum : Bool)
    (maxBytes : Nat) : Except PyError (List String) × ByteBuf :=
  (encode wl buf.data checksum maxBytes,
   if buf.data.length ≤ maxBytes ∧ buf.data.length % 2 = 1 then
     match buf with
     | ByteBuf.bytes d => ByteBuf.bytes d
     | ByteBuf.bytearray d => ByteBuf.bytearray (d ++ [0])
   else buf)

/-! ## A concrete word list satisfying the specification's invariants

Modelled from the spec: the generated asset `wordlist_v1` (65536 unique
lowercase words, reserved tokens excluded) is not among the sources, so a
concrete stand-in that satisfies the stated invariants is used for
witnesses; all claim theorems are stated for an arbitrary word list under
those invariants. -/

/-- Base-16 digit as a lowercase letter in `'a'..'p'`. -/
def hexChar (k : Nat) : Char := Char.ofNat (97 + k % 16)

/-- The `n`-th stand-in word: `'q'` followed by the four base-16 digits of
`n` written with letters, e.g. `mkWord 0 = "qaaaa"`. -/
def mkWord (n : Nat) : String :=
  String.mk ['q', hexChar (n / 4096), hexChar (n / 256), hexChar (n / 16),
    hexChar n]

/-- A valid 65536-entry word list. -/
def wl65536 : List String := (List.range' 0 65536).map mkWord

lemma hexChar_lower (k : Nat) : pyLowerChar (hexChar k) = hexChar k := by
  have h : ∀ a, a < 16 → pyLowerChar (Char.ofNat (97 + a)) = Char.ofNat (97 + a) := by
    decide
  exact h (k % 16) (Nat.mod_lt k (by norm_num))

lemma hexChar_inj {k k' : Nat} (h : hexChar k = hexChar k') :
    k % 16 = k' % 16 := by
  have H : ∀ a < 16, ∀ b < 16,
      Char.ofNat (97 + a) = Char.ofNat (97 + b) → a = b := by decide
  exact H (k % 16) (Nat.mod_lt k (by norm_num)) (k' % 16)
    (Nat.mod_lt k' (by norm_num)) h

lemma mkWord_inj {m n : Nat} (hm : m < 65536) (hn : n < 65536)
    (h : mkWord m = mkWord n) : m = n := by
  unfold mkWord at h
  injection h with h
  simp only [List.cons.injEq, and_true] at h
  obtain ⟨-, h1, h2, h3, h4⟩ := h
  have e1 := hexChar_inj h1
  have e2 := hexChar_inj h2
  have e3 := hexChar_inj h3
  have e4 := hexChar_inj h4
  omega

lemma wl65536_length : wl65536.length = WORDLIST_SIZE := by
  simp [wl65536, WORDLIST_SIZE]

lemma wl65536_nodup : wl65536.Nodup :=
  List.Nodup.map_on
    (fun _ hx _ hy h =>
      mkWord_inj (by have := (List.mem_range'_1.mp hx).2; omega)
        (by have := (List.mem_range'_1.mp hy).2; omega) h)
    (List.nodup_range' 0 65536)

lemma mkWord_mem {n : Nat} (h : n < 65536) : mkWord n ∈ wl65536 :=
  List.mem_map.mpr ⟨n, List.mem_range'_1.mpr ⟨by omega, by omega⟩, rfl⟩

lemma pyLower_mkWord (n : Nat) : pyLower (mkWord n) = mkWord n := by
  have hq : pyLowerChar 'q' = 'q' := by decide
  simp [pyLower, mkWord, hq, hexChar_lower]

lemma wl65536_lower : ∀ w ∈ wl65536, pyLower w = w := by
  intro w hw
  obtain ⟨n, -, rfl⟩ := List.mem_map.mp hw
  exact pyLower_mkWord n

lemma not_mem_wl65536 (s : String) (h : s.data.head? ≠ some 'q') :
    s ∉ wl65536 := by
  intro hm
  obtain ⟨i, -, hi⟩ := List.mem_map.mp hm
  apply h
  rw [← hi]
  rfl

lemma check_not_mem_wl65536 : CHECKSUM_WORD ∉ wl65536 :=
  not_mem_wl65536 _ (by decide)

lemma null_not_mem_wl65536 : PADDING_WORD ∉ wl65536 :=
  not_mem_wl65536 _ (by decide)

/-! ## Generic lemmas about the codec -/

/-- A 2-byte chunk maps to a word of the table which maps back to the same
chunk: the core bijection between chunks and words, for any table with the
specified size that is duplicate-free. -/
lemma chunk_word_roundtrip (wl : List String) (hlen : wl.length = WORDLIST_SIZE)
    (hnd : wl.Nodup) {b0 b1 : Nat} (h0 : b0 < 256) (h1 : b1 < 256) :
    ∃ w, _chunk_to_word wl b0 b1 = Except.ok w ∧ w ∈ wl ∧
      _word_to_chunk wl w = Except.ok [b0, b1] := by
  have hidx : _bytes_to_int b0 b1 < wl.length := by
    rw [hlen]; unfold _bytes_to_int WORDLIST_SIZE; omega
  refine ⟨wl[_bytes_to_int b0 b1], ?_, List.getElem_mem hidx, ?_⟩
  · unfold _chunk_to_word
    rw [List.get?_eq_getElem?, List.getElem?_eq_getElem hidx]
  · unfold _word_to_chunk
    rw [if_pos (List.getElem_mem hidx), List.indexOf_getElem hnd _ hidx]
    rw [if_pos (by unfold _bytes_to_int; omega)]
    have e0 : _bytes_to_int b0 b1 % 256 = b0 := by unfold _bytes_to_int; omega
    have e1 : _bytes_to_int b0 b1 / 256 % 256 = b1 := by
      unfold _bytes_to_int; omega
    simp [_int_to_bytes, e0, e1]

/-- The encoding loop and the decoding loop are mutually inverse on
even-length byte sequences, and every produced token is a table word. -/
lemma chunks_words_roundtrip (wl : List String) (hlen : wl.length = WORDLIST_SIZE)
    (hnd : wl.Nodup) :
    ∀ d : List Nat, (∀ x ∈ d, x < 256) → d.length % 2 = 0 →
      ∃ ws, chunksToWords wl d = Except.ok ws ∧ (∀ w ∈ ws, w ∈ wl) ∧
        2 * ws.length = d.length ∧ wordsToBytes wl ws = Except.ok d
  | [], _, _ => ⟨[], rfl, by simp, rfl, rfl⟩
  | [x], _, he => by simp at he
  | b0 :: b1 :: rest, hb, he => by
      have h0 : b0 < 256 := hb b0 (by simp)
      have h1 : b1 < 256 := hb b1 (by simp)
      obtain ⟨w, hw1, hw2, hw3⟩ := chunk_word_roundtrip wl hlen hnd h0 h1
      have he' : rest.length % 2 = 0 := by
        simp only [List.length_cons] at he; omega
      obtain ⟨ws, hc, hm, hl, hwb⟩ :=
        chunks_words_roundtrip wl hlen hnd rest
          (fun x hx => hb x (by simp [hx])) he'
      refine ⟨w :: ws, ?_, ?_, ?_, ?_⟩
      · simp [chunksToWords, hw1, hc]
      · intro u hu
        rcases List.mem_cons.mp hu with h | h
        · exact h ▸ hw2
        · exact hm u h
      · simp only [List.length_cons] at hl ⊢; omega
      · simp [wordsToBytes, hw3, hwb]

/-- Indexed description of the encoding loop: the `k`-th produced token is
the table entry at the little-endian value of the `k`-th 2-byte chunk. -/
lemma chunksToWords_getD (wl : List String) :
    ∀ (d : List Nat) (ws : List String), chunksToWords wl d = Except.ok ws →
      ∀ k, k < ws.length →
        ws.getD k "" =
          wl.getD (_bytes_to_int (d.getD (2 * k) 0) (d.getD (2 * k + 1) 0)) ""
  | [], ws, h => by
      unfold chunksToWords at h
      injection h with h
      subst h
      intro k hk
      simp at hk
  | [x], ws, h => by simp [chunksToWords] at h
  | b0 :: b1 :: rest, ws, h => by
      unfold chunksToWords at h
      cases hcw : _chunk_to_word wl b0 b1 with
      | error e => rw [hcw] at h; cases h
      | ok w =>
        rw [hcw] at h
        cases hrest : chunksToWords wl rest with
        | error e => rw [hrest] at h; cases h
        | ok ws' =>
          rw [hrest] at h
          injection h with h
          subst h
          intro k hk
          cases k with
          | zero =>
            unfold _chunk_to_word at hcw
            cases hg : wl.get? (_bytes_to_int b0 b1) with
            | none => rw [hg] at hcw; cases hcw
            | some w' =>
              rw [hg] at hcw
              injection hcw with hcw
              subst hcw
              show w' = wl.getD (_bytes_to_int b0 b1) ""
              rw [List.getD_eq_getElem?_getD, ← List.get?_eq_getElem?, hg]
              rfl
          | succ k =>
            have ih := chunksToWords_getD wl rest ws' hrest k
              (by simpa using hk)
            rw [List.getD_cons_succ,
              show 2 * (k + 1) = 2 * k + 1 + 1 from by omega,
              List.getD_cons_succ, List.getD_cons_succ,
              show 2 * k + 1 + 1 + 1 = (2 * k + 1) + 1 + 1 from by omega,
              List.getD_cons_succ, List.getD_cons_succ]
            exact ih

lemma padData_length_even (d : List Nat) : (padData d).length % 2 = 0 := by
  unfold padData
  split
  · simp only [List.length_append, List.length_cons, List.length_nil]
    omega
  · omega

lemma padData_length (d : List Nat) :
    (padData d).length = d.length + d.length % 2 := by
  unfold padData
  split
  · simp only [List.length_append, List.length_cons, List.length_nil]
    omega
  · omega

lemma padData_bytes {d : List Nat} (h : ∀ x ∈ d, x < 256) :
    ∀ x ∈ padData d, x < 256 := by
  unfold padData
  split
  · intro x hx
    rcases List.mem_append.mp hx with hx | hx
    · exact h x hx
    · simp at hx; omega
  · exact h

/-- The byte sequence over which `encode` computes the checksum
(`binary_data[:-1] if padded else binary_data`) is the original data. -/
lemma padData_unpad (d : List Nat) :
    (if d.length % 2 = 1 then (padData d).dropLast else padData d) = d := by
  by_cases h : d.length % 2 = 1 <;> simp [padData, h, List.dropLast_concat]

lemma map_pyLower_fixed {l : List String} (h : ∀ w ∈ l, pyLower w = w) :
    l.map pyLower = l := by
  conv_rhs => rw [← List.map_id l]
  exact List.map_congr_left h

lemma pyLower_check : pyLower CHECKSUM_WORD = CHECKSUM_WORD := by decide

lemma pyLower_null : pyLower PADDING_WORD = PADDING_WORD := by decide

lemma getD_mem {wl : List String} {i : Nat} (h : i < wl.length) :
    wl.getD i "" ∈ wl := by
  rw [List.getD_eq_getElem wl "" h]
  exact List.getElem_mem h

/-- The checksum-stripping step captures exactly the last two tokens when the
marker sits third from last in a stream of more than 3 tokens. -/
lemma checksumSplit_append (D : List String) (hD : D ≠ []) (w1 w2 : String) :
    checksumSplit (D ++ [CHECKSUM_WORD, w1, w2]) = (D, [w1, w2]) := by
  unfold checksumSplit
  have hlen : (D ++ [CHECKSUM_WORD, w1, w2]).length = D.length + 3 := by simp
  have hDpos : 0 < D.length := List.length_pos.mpr hD
  have hget : (D ++ [CHECKSUM_WORD, w1, w2]).get?
      ((D ++ [CHECKSUM_WORD, w1, w2]).length - 3) = some CHECKSUM_WORD := by
    rw [List.get?_eq_getElem?, hlen,
      show D.length + 3 - 3 = D.length from by omega,
      List.getElem?_append_right (le_refl _)]
    simp
  rw [if_pos ⟨by omega, hget⟩, hlen,
    show D.length + 3 - 3 = D.length from by omega,
    show D.length + 3 - 2 = D.length + 1 from by omega,
    List.take_left, ← List.drop_drop, List.drop_left]
  rfl

/-- The checksum-stripping step is the identity when the marker word occurs
nowhere in the stream (in particular whenever every token is either a table
word or the padding sentinel, for tables excluding the reserved words). -/
lemma checksumSplit_nock (D : List String) (hno : ∀ u ∈ D, u ≠ CHECKSUM_WORD) :
    checksumSplit D = (D, []) := by
  unfold checksumSplit
  rw [if_neg]
  rintro ⟨-, hget⟩
  rw [List.get?_eq_getElem?] at hget
  exact hno _ (List.getElem?_mem hget) rfl

/-- Reverse lookup of the table entry at `i` recovers `i`, packed
little-endian, for duplicate-free tables of the specified size. -/
lemma word_to_chunk_getD (wl : List String) (hlen : wl.length = WORDLIST_SIZE)
    (hnd : wl.Nodup) {i : Nat} (hi : i < 65536) :
    _word_to_chunk wl (wl.getD i "") = Except.ok [i % 256, i / 256 % 256] := by
  have hi' : i < wl.length := by rw [hlen]; exact hi
  rw [List.getD_eq_getElem wl "" hi']
  unfold _word_to_chunk
  rw [if_pos (List.getElem_mem hi'), List.indexOf_getElem hnd _ hi', if_pos hi]
  rfl

/-- `decode` on a well-formed stream: data words of the table followed by an
optional padding sentinel and an optional checksum block decode to the data
bytes (with the pad byte removed), for any table satisfying the invariants
of the specification. -/
lemma decode_wellformed (wl : List String) (hlen : wl.length = WORDLIST_SIZE)
    (hnd : wl.Nodup) (hck : CHECKSUM_WORD ∉ wl) (hnl : PADDING_WORD ∉ wl)
    (hlow : ∀ w ∈ wl, pyLower w = w)
    (ws : List String) (hwsmem : ∀ w ∈ ws, w ∈ wl) (hws1 : ws ≠ [])
    (out : List Nat) (hwb : wordsToBytes wl ws = Except.ok out)
    (padded c : Bool) (ckv : Nat) (hckv : ckv < 4294967296)
    (hcrc : ckv = _crc32 (if padded then out.dropLast else out))
    (maxW : Nat)
    (hguard : (ws ++ (if padded then [PADDING_WORD] else []) ++
      (if c then [CHECKSUM_WORD, wl.getD (ckv % 65536) "",
        wl.getD (ckv / 65536) ""] else [])).length ≤ maxW) :
    decode wl (ws ++ (if padded then [PADDING_WORD] else []) ++
      (if c then [CHECKSUM_WORD, wl.getD (ckv % 65536) "",
        wl.getD (ckv / 65536) ""] else [])) maxW =
      Except.ok (if padded then out.dropLast else out) := by
  have hlo : ckv % 65536 < wl.length := by
    rw [hlen]; unfold WORDLIST_SIZE; omega
  have hhi : ckv / 65536 < wl.length := by
    rw [hlen]; unfold WORDLIST_SIZE; omega
  have hDne : (ws ++ (if padded then [PADDING_WORD] else [])) ≠ [] := by
    cases padded <;> simp [hws1]
  have hmapT : (ws ++ (if padded then [PADDING_WORD] else []) ++
      (if c then [CHECKSUM_WORD, wl.getD (ckv % 65536) "",
        wl.getD (ckv / 65536) ""] else [])).map pyLower =
      ws ++ (if padded then [PADDING_WORD] else []) ++
      (if c then [CHECKSUM_WORD, wl.getD (ckv % 65536) "",
        wl.getD (ckv / 65536) ""] else []) := by
    apply map_pyLower_fixed
    intro w hw
    rcases List.mem_append.mp hw with hw | hw
    · rcases List.mem_append.mp hw with hw | hw
      · exact hlow w (hwsmem w hw)
      · cases padded with
        | true => simp at hw; rw [hw]; exact pyLower_null
        | false => simp at hw
    · cases c with
      | true =>
        simp only [if_true] at hw
        rcases List.mem_cons.mp hw with hw | hw
        · rw [hw]; exact pyLower_check
        · rcases List.mem_cons.mp hw with hw | hw
          · rw [hw]; exact hlow _ (getD_mem hlo)
          · rcases List.mem_cons.mp hw with hw | hw
            · rw [hw]; exact hlow _ (getD_mem hhi)
            · simp at hw
      | false => simp at hw
  have hsplit : checksumSplit (ws ++ (if padded then [PADDING_WORD] else []) ++
      (if c then [CHECKSUM_WORD, wl.getD (ckv % 65536) "",
        wl.getD (ckv / 65536) ""] else [])) =
      (ws ++ (if padded then [PADDING_WORD] else []),
       if c then [wl.getD (ckv % 65536) "", wl.getD (ckv / 65536) ""] else []) := by
    cases c with
    | true => exact checksumSplit_append _ hDne _ _
    | false =>
      simp only [Bool.false_eq_true, if_false, List.append_nil]
      apply checksumSplit_nock
      intro u hu
      rcases List.mem_append.mp hu with hu | hu
      · intro he
        exact hck (he ▸ hwsmem u hu)
      · cases padded with
        | true => simp at hu; rw [hu]; decide
        | false => simp at hu
  have hlast : (ws ++ (if padded then [PADDING_WORD] else [])).getLast? =
      some (if padded then PADDING_WORD
            else ws.getLast hws1) := by
    cases padded with
    | true => exact List.getLast?_concat ws
    | false =>
      simp only [Bool.false_eq_true, if_false, List.append_nil]
      exact List.getLast?_eq_getLast ws hws1
  have hwlo := word_to_chunk_getD wl hlen hnd
    (show ckv % 65536 < 65536 from by omega)
  have hwhi := word_to_chunk_getD wl hlen hnd
    (show ckv / 65536 < 65536 from by omega)
  have hle : le32 ([ckv % 65536 % 256, ckv % 65536 / 256 % 256] ++
      [ckv / 65536 % 256, ckv / 65536 / 256 % 256]) = ckv := by
    show ckv % 65536 % 256 + 256 * (ckv % 65536 / 256 % 256) +
      65536 * (ckv / 65536 % 256) + 16777216 * (ckv / 65536 / 256 % 256) = ckv
    omega
  unfold decode
  rw [if_neg (by omega)]
  simp only [hmapT, hsplit, hlast]
  cases padded with
  | true =>
    simp only [if_true] at hcrc ⊢
    simp only [if_pos rfl, List.dropLast_concat, hwb]
    cases c with
    | false => simp
    | true =>
      simp only [if_true, hwlo, hwhi, List.head?_cons, hle, ← hcrc]
  | false =>
    have hlastne : ¬(ws.getLast hws1 = PADDING_WORD) := by
      intro he
      exact hnl (he ▸ hwsmem _ (List.getLast_mem hws1))
    simp only [Bool.false_eq_true, if_false, List.append_nil] at hcrc ⊢
    simp only [if_neg hlastne, hwb]
    cases c with
    | false => simp
    | true =>
      simp only [if_true, hwlo, hwhi, List.head?_cons, hle, ← hcrc]

/-- Forward lookup of the table entry for a valid chunk, in `getD` form. -/
lemma chunk_to_word_getD (wl : List String) (hlen : wl.length = WORDLIST_SIZE)
    {b0 b1 : Nat} (h0 : b0 < 256) (h1 : b1 < 256) :
    _chunk_to_word wl b0 b1 = Except.ok (wl.getD (_bytes_to_int b0 b1) "") := by
  have hidx : _bytes_to_int b0 b1 < wl.length := by
    rw [hlen]; unfold _bytes_to_int WORDLIST_SIZE; omega
  unfold _chunk_to_word
  rw [List.get?_eq_getElem?, List.getElem?_eq_getElem hidx,
    List.getD_eq_getElem wl "" hidx]

lemma wl65536_chunk00 : _chunk_to_word wl65536 0 0 = Except.ok (mkWord 0) := by
  have h : wl65536.get? (_bytes_to_int 0 0) = some (mkWord 0) := by
    unfold wl65536
    rw [List.get?_eq_getElem?, List.getElem?_map, List.getElem?_range' 0 1
      (show _bytes_to_int 0 0 < 65536 from by norm_num [_bytes_to_int])]
    norm_num [_bytes_to_int]
  unfold _chunk_to_word
  rw [h]

lemma chunksToWords_replicate (k : Nat) :
    chunksToWords wl65536 (List.replicate (2 * k) 0) =
      Except.ok (List.replicate k (mkWord 0)) := by
  induction k with
  | zero => rfl
  | succ k ih =>
    rw [show 2 * (k + 1) = 2 * k + 1 + 1 from by omega,
      List.replicate_succ, List.replicate_succ]
    simp [chunksToWords, wl65536_chunk00, ih, List.replicate_succ]

/-! ## Claim theorems -/

/-- C1 (corrected): round-trip of the codec.  As stated in the spec the
claim fails at `len(b) = 0` and for payloads whose encoding exceeds the
default decode limit of 1024 tokens; within those bounds, decoding the
encoding recovers the bytes exactly, with and without checksum, for any
word table satisfying the specified invariants (65536 entries, no
duplicates, reserved words absent, lowercase). -/
theorem C1_roundtrip_amended (wl : List String) (data : List Nat) (c : Bool)
    (hlen : wl.length = WORDLIST_SIZE) (hnd : wl.Nodup)
    (hck : CHECKSUM_WORD ∉ wl) (hnl : PADDING_WORD ∉ wl)
    (hlow : ∀ w ∈ wl, pyLower w = w)
    (hdata : ∀ x ∈ data, x < 256)
    (hpos : 1 ≤ data.length)
    (htok : data.length / 2 + 2 * (data.length % 2) + (if c then 3 else 0) ≤
      DEFAULT_MAX_DECODING_WORDS) :
    (encode wl data c DEFAULT_MAX_ENCODING_BYTES).bind
      (fun ws => decode wl ws DEFAULT_MAX_DECODING_WORDS) = Except.ok data := by
  obtain ⟨ws, hcw, hwsmem, hwslen, hwb⟩ :=
    chunks_words_roundtrip wl hlen hnd (padData data) (padData_bytes hdata)
      (padData_length_even data)
  have hpdlen := padData_length data
  have hwsne : ws ≠ [] := by
    intro h
    subst h
    simp only [List.length_nil] at hwslen
    omega
  unfold DEFAULT_MAX_DECODING_WORDS at htok
  have hmax : ¬(data.length > DEFAULT_MAX_ENCODING_BYTES) := by
    unfold DEFAULT_MAX_ENCODING_BYTES
    split at htok <;> omega
  set ck := _crc32 data with hckdef
  have hckb : ck < 4294967296 := Nat.mod_lt _ (by norm_num)
  have hlo_eq : _bytes_to_int (ck % 256) (ck / 256 % 256) = ck % 65536 := by
    unfold _bytes_to_int; omega
  have hhi_eq : _bytes_to_int (ck / 65536 % 256) (ck / 16777216 % 256) =
      ck / 65536 := by
    unfold _bytes_to_int; omega
  have hclo : _chunk_to_word wl (ck % 256) (ck / 256 % 256) =
      Except.ok (wl.getD (ck % 65536) "") := by
    rw [chunk_to_word_getD wl hlen (by omega) (by omega), hlo_eq]
  have hchi : _chunk_to_word wl (ck / 65536 % 256) (ck / 16777216 % 256) =
      Except.ok (wl.getD (ck / 65536) "") := by
    rw [chunk_to_word_getD wl hlen (by omega) (by omega), hhi_eq]
  by_cases hp : data.length % 2 = 1
  · have hencode : encode wl data c DEFAULT_MAX_ENCODING_BYTES =
        Except.ok (ws ++ [PADDING_WORD] ++
          (if c then [CHECKSUM_WORD, wl.getD (ck % 65536) "",
            wl.getD (ck / 65536) ""] else [])) := by
      unfold encode
      rw [if_neg hmax, hcw]
      cases c with
      | false => simp [hp]
      | true =>
        have hdl : (padData data).dropLast = data := by
          have h := padData_unpad data
          rwa [if_pos hp] at h
        simp only [if_pos hp, if_true, hdl, ← hckdef, hclo, hchi]
    rw [hencode]
    show decode wl (ws ++ [PADDING_WORD] ++ _) DEFAULT_MAX_DECODING_WORDS =
      Except.ok data
    have hdl : (padData data).dropLast = data := by
      have h := padData_unpad data
      rwa [if_pos hp] at h
    have hres := decode_wellformed wl hlen hnd hck hnl hlow ws hwsmem hwsne
      (padData data) hwb true c ck hckb
      (by rw [if_pos rfl, hdl])
      DEFAULT_MAX_DECODING_WORDS
      (by
        cases c with
        | true =>
          simp at htok ⊢
          unfold DEFAULT_MAX_DECODING_WORDS
          omega
        | false =>
          simp at htok ⊢
          unfold DEFAULT_MAX_DECODING_WORDS
          omega)
    rw [← hdl]
    exact hres
  · have hp0 : data.length % 2 = 0 := by omega
    have hencode : encode wl data c DEFAULT_MAX_ENCODING_BYTES =
        Except.ok (ws ++ [] ++
          (if c then [CHECKSUM_WORD, wl.getD (ck % 65536) "",
            wl.getD (ck / 65536) ""] else [])) := by
      unfold encode
      rw [if_neg hmax, hcw]
      cases c with
      | false => simp [hp]
      | true =>
        have hpd' : padData data = data := by
          unfold padData
          rw [if_neg hp]
        simp only [if_neg hp, if_true, hpd', ← hckdef, hclo, hchi,
          List.append_nil]
    rw [hencode]
    show decode wl (ws ++ [] ++ _) DEFAULT_MAX_DECODING_WORDS = Except.ok data
    have hpd : padData data = data := by
      unfold padData
      rw [if_neg hp]
    have hres := decode_wellformed wl hlen hnd hck hnl hlow ws hwsmem hwsne
      (padData data) hwb false c ck hckb
      (by
        rw [if_neg (by simp : ¬(false = true)), hpd])
      DEFAULT_MAX_DECODING_WORDS
      (by
        cases c with
        | true =>
          simp at htok ⊢
          unfold DEFAULT_MAX_DECODING_WORDS
          omega
        | false =>
          simp at htok ⊢
          unfold DEFAULT_MAX_DECODING_WORDS
          omega)
    rw [← hpd]
    exact hres

/-- Witness for C1 at the one-byte payload `[0]` with checksum enabled,
over the concrete valid word table. -/
theorem C1_roundtrip_amended_witness :
    (encode wl65536 [0] true DEFAULT_MAX_ENCODING_BYTES).bind
      (fun ws => decode wl65536 ws DEFAULT_MAX_DECODING_WORDS) =
      Except.ok [0] :=
  C1_roundtrip_amended wl65536 [0] true wl65536_length wl65536_nodup
    check_not_mem_wl65536 null_not_mem_wl65536 wl65536_lower
    (by decide) (by decide) (by decide)

/-- Counterexample for C1 as stated: with the default limits the round trip
fails at the empty payload (`decode` raises an uncaught `IndexError` on the
empty token list) and at a 2050-byte payload (1025 tokens exceed the default
`max_words = 1024`, raising the too-many-words error). -/
theorem C1_counterexample :
    (encode wl65536 [] false DEFAULT_MAX_ENCODING_BYTES).bind
      (fun ws => decode wl65536 ws DEFAULT_MAX_DECODING_WORDS) ≠
      Except.ok [] ∧
    (encode wl65536 (List.replicate 2050 0) false DEFAULT_MAX_ENCODING_BYTES).bind
      (fun ws => decode wl65536 ws DEFAULT_MAX_DECODING_WORDS) ≠
      Except.ok (List.replicate 2050 0) := by
  constructor
  · have h1 : (encode wl65536 [] false DEFAULT_MAX_ENCODING_BYTES).bind
        (fun ws => decode wl65536 ws DEFAULT_MAX_DECODING_WORDS) =
        Except.error PyError.indexError := rfl
    rw [h1]
    exact fun h => Except.noConfusion h
  · have henc : encode wl65536 (List.replicate 2050 0)
        false DEFAULT_MAX_ENCODING_BYTES =
        Except.ok (List.replicate 1025 (mkWord 0)) := by
      unfold encode
      rw [if_neg (by simp [DEFAULT_MAX_ENCODING_BYTES])]
      have hpd : padData (List.replicate 2050 0) = List.replicate 2050 0 := by
        unfold padData
        rw [if_neg (by simp)]
      rw [hpd, show (2050 : Nat) = 2 * 1025 from rfl, chunksToWords_replicate]
      simp

    rw [henc]
    show decode wl65536 (List.replicate 1025 (mkWord 0))
      DEFAULT_MAX_DECODING_WORDS ≠ _
    unfold decode
    rw [if_pos (by simp [DEFAULT_MAX_DECODING_WORDS])]
    simp

/-- C2 (corrected): a nonempty token list that becomes empty after the
marker stripping (the single padding sentinel) decodes to the empty byte
sequence, but `decode` of an empty string or empty token list does not
return empty bytes — it raises an uncaught `IndexError` at `words[-1]`
(an empty Python string `split()`s to the empty token list). -/
theorem C2_empty_decode_amended (wl : List String) :
    decode wl [PADDING_WORD] DEFAULT_MAX_DECODING_WORDS = Except.ok [] ∧
    decode wl [] DEFAULT_MAX_DECODING_WORDS =
      Except.error PyError.indexError :=
  ⟨rfl, rfl⟩

/-- Counterexample for C2 as stated: on the empty token list `decode` does
not succeed with zero bytes but raises `IndexError`. -/
theorem C2_counterexample :
    decode wl65536 [] DEFAULT_MAX_DECODING_WORDS =
      Except.error PyError.indexError := rfl

/-- C10 (confirmed): decoding the one-token stream consisting solely of the
padding sentinel succeeds with the empty byte sequence: the sentinel is
stripped, zero data words reconstruct zero bytes, and removing the final
pad byte of the empty payload leaves it empty (Python `b''[:-1]`). -/
theorem C10_lone_padding_token (wl : List String) :
    decode wl [PADDING_WORD] DEFAULT_MAX_DECODING_WORDS = Except.ok [] := rfl

/-! ## Loader environments and lemmas for the loading claims -/

/-- An environment whose `wordlist_v*` modules carry a 3-word `words`
attribute (wrong size). -/
def env3 : ImportEnv := ⟨fun _ => some (some ["a", "b", "c"])⟩

/-- An environment whose modules carry 65536 identical words (right size,
not unique). -/
def envDup : ImportEnv :=
  ⟨fun _ => some (some (List.replicate WORDLIST_SIZE "a"))⟩

/-- An environment serving different valid tables for versions 1 and 2. -/
def envAB : ImportEnv :=
  ⟨fun v => if v = 1 then some (some (List.replicate WORDLIST_SIZE "a"))
            else some (some (List.replicate WORDLIST_SIZE "b"))⟩

lemma replicate_wordlist_ne_nil (a : String) :
    List.replicate WORDLIST_SIZE a ≠ [] := by
  intro h
  have h2 := congrArg List.length h
  rw [List.length_replicate] at h2
  exact absurd h2 (by decide)

/-- A first load from the empty cache succeeds when the module exists and
its `words` attribute is truthy with the right length. -/
lemma load_succeeds (env : ImportEnv) (v : Nat) (l : List String)
    (hm : env.modules v = some (some l)) (hne : l ≠ [])
    (hlen : l.length = WORDLIST_SIZE) :
    lazily_load_wordlist env v (some []) = (Except.ok (), some l) := by
  unfold lazily_load_wordlist
  simp only [hm]
  rw [if_neg (by decide : ¬(pyTruthy (some ([] : List String)) = true))]
  rw [if_pos (show pyTruthy (some l) = true from by
    cases l with
    | nil => exact absurd rfl hne
    | cons a t => rfl)]
  rw [if_neg (show ¬(((some l).getD []).length ≠ WORDLIST_SIZE) from by
    simp [hlen])]

/-- C3 (code_bug): the spec says a load of a missing, malformed or
wrong-sized asset raises the library's error and leaves the cached state
unchanged.  The code violates this for a wrong-sized `words` attribute: it
assigns the global *before* validating, the wrong-size `raise` itself
crashes with `NameError` (undefined `words` in `err.format(len(words), ...)`)
instead of `HumanEncodingError`, the invalid table stays cached so a second
call succeeds — and a right-sized table with duplicate words loads without
any error, although the spec demands 65536 *unique* words. -/
theorem C3_load_failure_behaviour :
    lazily_load_wordlist env3 1 (some []) =
      (Except.error PyError.wordlistSizeNameError, some ["a", "b", "c"]) ∧
    lazily_load_wordlist env3 1 (lazily_load_wordlist env3 1 (some [])).2 =
      (Except.ok (), some ["a", "b", "c"]) ∧
    (lazily_load_wordlist envDup 1 (some [])).1 = Except.ok () := by
  refine ⟨rfl, rfl, ?_⟩
  rw [load_succeeds envDup 1 (List.replicate WORDLIST_SIZE "a") rfl
    (replicate_wordlist_ne_nil "a") (List.length_replicate _ _)]

/-- C4 (corrected): loading is idempotent, but the cache is global rather
than per-version: once any load has succeeded, a call for *any* version —
including a different one — returns successfully without reloading and
keeps the originally loaded table, so the version argument selects the
asset only on the very first successful load. -/
theorem C4_loading_amended :
    (∀ (env : ImportEnv) (v : Nat) (st : Option (List String)),
      pyTruthy st = true → lazily_load_wordlist env v st = (Except.ok (), st)) ∧
    (∀ (env : ImportEnv) (v : Nat) (l : List String),
      env.modules v = some (some l) → l ≠ [] → l.length = WORDLIST_SIZE →
      lazily_load_wordlist env v (some []) = (Except.ok (), some l)) := by
  constructor
  · intro env v st h
    unfold lazily_load_wordlist
    rw [if_pos h]
  · intro env v l hm hne hlen
    exact load_succeeds env v l hm hne hlen

/-- Witness for C4: a call on a populated cache is a successful no-op, and
a first call on the empty cache loads version 1's table. -/
theorem C4_loading_amended_witness :
    lazily_load_wordlist envAB 7 (some ["x"]) = (Except.ok (), some ["x"]) ∧
    lazily_load_wordlist envAB 1 (some []) =
      (Except.ok (), some (List.replicate WORDLIST_SIZE "a")) :=
  ⟨C4_loading_amended.1 envAB 7 (some ["x"]) rfl,
   C4_loading_amended.2 envAB 1 (List.replicate WORDLIST_SIZE "a") rfl
     (replicate_wordlist_ne_nil "a") (List.length_replicate _ _)⟩

/-- Counterexample for C4 as stated: after version 1's table is loaded, a
first call for version 2 does not load version 2's table — it succeeds and
keeps version 1's distinct table active. -/
theorem C4_counterexample :
    lazily_load_wordlist envAB 2 ((lazily_load_wordlist envAB 1 (some [])).2) =
      (Except.ok (), some (List.replicate WORDLIST_SIZE "a")) ∧
    List.replicate WORDLIST_SIZE "a" ≠ List.replicate WORDLIST_SIZE "b" := by
  constructor
  · have h1 : (lazily_load_wordlist envAB 1 (some [])).2 =
        some (List.replicate WORDLIST_SIZE "a") := by
      rw [load_succeeds envAB 1 (List.replicate WORDLIST_SIZE "a") rfl
        (replicate_wordlist_ne_nil "a") (List.length_replicate _ _)]
    rw [h1]
    unfold lazily_load_wordlist
    rw [if_pos (show pyTruthy (some (List.replicate WORDLIST_SIZE "a")) = true
      from rfl)]
  · intro h
    have h2 : "a" = "b" :=
      congrArg (fun l => l.getD 0 "") h
    exact absurd h2 (by decide)

/-- C9 (corrected): `decode` and `encode` never modify an immutable `bytes`
input or an even-length `bytearray`, but `encode` on an odd-length
`bytearray` within the size limit mutates the caller's buffer in place,
appending one zero byte (`binary_data += b'\0'` extends a `bytearray`). -/
theorem C9_purity_amended :
    (∀ (wl : List String) (d : List Nat) (c : Bool) (m : Nat),
      (encodeWithBuffer wl (ByteBuf.bytes d) c m).2 = ByteBuf.bytes d) ∧
    (∀ (wl : List String) (d : List Nat) (c : Bool) (m : Nat),
      d.length % 2 = 0 →
      (encodeWithBuffer wl (ByteBuf.bytearray d) c m).2 =
        ByteBuf.bytearray d) ∧
    (∀ (wl : List String) (d : List Nat) (c : Bool) (m : Nat),
      d.length % 2 = 1 → d.length ≤ m →
      (encodeWithBuffer wl (ByteBuf.bytearray d) c m).2 =
        ByteBuf.bytearray (d ++ [0])) := by
  refine ⟨?_, ?_, ?_⟩
  · intro wl d c m
    by_cases h : (ByteBuf.bytes d).data.length ≤ m ∧
        (ByteBuf.bytes d).data.length % 2 = 1
    · simp [encodeWithBuffer, h]
    · simp [encodeWithBuffer, h]
  · intro wl d c m he
    have h : ¬((ByteBuf.bytearray d).data.length ≤ m ∧
        (ByteBuf.bytearray d).data.length % 2 = 1) := by
      rintro ⟨-, h2⟩
      rw [show (ByteBuf.bytearray d).data = d from rfl] at h2
      omega
    simp [encodeWithBuffer, h]
  · intro wl d c m ho hm
    have h : (ByteBuf.bytearray d).data.length ≤ m ∧
        (ByteBuf.bytearray d).data.length % 2 = 1 := ⟨hm, ho⟩
    simp [encodeWithBuffer, h]

/-- Witness for C9: concrete buffers of each kind. -/
theorem C9_purity_amended_witness :
    (encodeWithBuffer wl65536 (ByteBuf.bytes [1]) false
      DEFAULT_MAX_ENCODING_BYTES).2 = ByteBuf.bytes [1] ∧
    (encodeWithBuffer wl65536 (ByteBuf.bytearray [1, 2]) false
      DEFAULT_MAX_ENCODING_BYTES).2 = ByteBuf.bytearray [1, 2] ∧
    (encodeWithBuffer wl65536 (ByteBuf.bytearray [3]) true
      DEFAULT_MAX_ENCODING_BYTES).2 = ByteBuf.bytearray [3, 0] :=
  ⟨C9_purity_amended.1 wl65536 [1] false DEFAULT_MAX_ENCODING_BYTES,
   C9_purity_amended.2.1 wl65536 [1, 2] false DEFAULT_MAX_ENCODING_BYTES
     (by decide),
   C9_purity_amended.2.2 wl65536 [3] true DEFAULT_MAX_ENCODING_BYTES
     (by decide) (by decide)⟩

/-- Counterexample for C9 as stated: an odd-length mutable `bytearray` does
not hold the same bytes after `encode` returns — a zero byte was appended. -/
theorem C9_counterexample :
    (encodeWithBuffer wl65536 (ByteBuf.bytearray [1]) false
      DEFAULT_MAX_ENCODING_BYTES).2 = ByteBuf.bytearray [1, 0] ∧
    ByteBuf.bytearray [1, 0] ≠ ByteBuf.bytearray [1] :=
  ⟨rfl, by decide⟩

/-- The checksum-stripping step never fires on 3 or fewer tokens. -/
lemma checksumSplit_short {words : List String} (h : words.length ≤ 3) :
    checksumSplit words = (words, []) := by
  unfold checksumSplit
  rw [if_neg]
  rintro ⟨h2, -⟩
  omega

/-- The decoding loop fails with the invalid-word error of the first token
absent from the table. -/
lemma wordsToBytes_invalid (wl : List String) (hlen : wl.length = WORDLIST_SIZE) :
    ∀ (d1 : List String) (w : String) (d2 : List String),
      (∀ u ∈ d1, u ∈ wl) → w ∉ wl →
      wordsToBytes wl (d1 ++ w :: d2) = Except.error (PyError.invalidWord w)
  | [], w, d2, _, hw => by
      simp only [List.nil_append]
      unfold wordsToBytes _word_to_chunk
      rw [if_neg hw]
  | u :: d1, w, d2, hmem, hw => by
      have hu : u ∈ wl := hmem u (by simp)
      have hult : wl.indexOf u < 65536 := by
        have h2 := List.indexOf_lt_length.mpr hu
        rw [hlen] at h2
        exact h2
      have huc : _word_to_chunk wl u =
          Except.ok (_int_to_bytes (wl.indexOf u)) := by
        unfold _word_to_chunk
        rw [if_pos hu, if_pos hult]
      have ih := wordsToBytes_invalid wl hlen d1 w d2
        (fun x hx => hmem x (by simp [hx])) hw
      simp only [List.cons_append]
      simp [wordsToBytes, huc, ih]

/-- C5 (confirmed): reserved-word detection in `decode` is strictly
positional.  With any table satisfying the invariants and any table word
`w`: the checksum marker heading a 3-token stream (not > 3 tokens) is
treated as data and fails as an invalid word; the marker not in
third-from-last position of a longer stream is likewise data; the padding
sentinel in a non-final position is data; and the sentinel in final
position is recognized and stripped, so a word plus the sentinel decodes to
the single first byte of the word's chunk. -/
theorem C5_positional_markers (wl : List String) (w : String)
    (hlen : wl.length = WORDLIST_SIZE)
    (hck : CHECKSUM_WORD ∉ wl) (hnl : PADDING_WORD ∉ wl)
    (hlow : ∀ u ∈ wl, pyLower u = u) (hw : w ∈ wl) :
    decode wl [CHECKSUM_WORD, w, w] DEFAULT_MAX_DECODING_WORDS =
      Except.error (PyError.invalidWord CHECKSUM_WORD) ∧
    decode wl [w, CHECKSUM_WORD, w, w, w] DEFAULT_MAX_DECODING_WORDS =
      Except.error (PyError.invalidWord CHECKSUM_WORD) ∧
    decode wl [PADDING_WORD, w] DEFAULT_MAX_DECODING_WORDS =
      Except.error (PyError.invalidWord PADDING_WORD) ∧
    decode wl [w, PADDING_WORD] DEFAULT_MAX_DECODING_WORDS =
      Except.ok [wl.indexOf w % 256] := by
  have hlw : pyLower w = w := hlow w hw
  have hwnotnull : w ≠ PADDING_WORD := fun he => hnl (he ▸ hw)
  have hwnotck : w ≠ CHECKSUM_WORD := fun he => hck (he ▸ hw)
  have hidx : wl.indexOf w < 65536 := by
    have h2 := List.indexOf_lt_length.mpr hw
    rw [hlen] at h2
    exact h2
  have hwchunk : _word_to_chunk wl w =
      Except.ok [wl.indexOf w % 256, wl.indexOf w / 256 % 256] := by
    unfold _word_to_chunk
    rw [if_pos hw, if_pos hidx]
    rfl
  have hcknot : _word_to_chunk wl CHECKSUM_WORD =
      Except.error (PyError.invalidWord CHECKSUM_WORD) := by
    unfold _word_to_chunk
    rw [if_neg hck]
  have hnlnot : _word_to_chunk wl PADDING_WORD =
      Except.error (PyError.invalidWord PADDING_WORD) := by
    unfold _word_to_chunk
    rw [if_neg hnl]
  refine ⟨?_, ?_, ?_, ?_⟩
  · unfold decode
    rw [if_neg (by norm_num [DEFAULT_MAX_DECODING_WORDS])]
    simp only [List.map_cons, List.map_nil, pyLower_check, hlw,
      checksumSplit_short (by norm_num : ([CHECKSUM_WORD, w, w]).length ≤ 3)]
    simp [List.getLast?, hwnotnull, wordsToBytes, hcknot]
  · unfold decode
    rw [if_neg (by norm_num [DEFAULT_MAX_DECODING_WORDS])]
    have hnock : checksumSplit [w, CHECKSUM_WORD, w, w, w] =
        ([w, CHECKSUM_WORD, w, w, w], []) := by
      unfold checksumSplit
      rw [if_neg]
      rintro ⟨-, hget⟩
      simp only [List.length_cons, List.length_nil] at hget
      rw [show (4 + 1 - 3 : Nat) = 2 from rfl] at hget
      simp only [List.get?] at hget
      injection hget with hget
      exact hwnotck hget
    simp only [List.map_cons, List.map_nil, pyLower_check, hlw, hnock]
    simp [List.getLast?, hwnotnull, wordsToBytes, hwchunk, hcknot]
  · unfold decode
    rw [if_neg (by norm_num [DEFAULT_MAX_DECODING_WORDS])]
    simp only [List.map_cons, List.map_nil, pyLower_null, hlw,
      checksumSplit_short (by norm_num : ([PADDING_WORD, w]).length ≤ 3)]
    simp [List.getLast?, hwnotnull, wordsToBytes, hnlnot]
  · unfold decode
    rw [if_neg (by norm_num [DEFAULT_MAX_DECODING_WORDS])]
    simp only [List.map_cons, List.map_nil, pyLower_null, hlw,
      checksumSplit_short (by norm_num : ([w, PADDING_WORD]).length ≤ 3)]
    simp [List.getLast?, wordsToBytes, hwchunk, List.dropLast]

/-- Witness for C5 over the concrete table, with `w = mkWord 0`. -/
theorem C5_positional_markers_witness :
    decode wl65536 [CHECKSUM_WORD, mkWord 0, mkWord 0]
      DEFAULT_MAX_DECODING_WORDS =
      Except.error (PyError.invalidWord CHECKSUM_WORD) ∧
    decode wl65536 [mkWord 0, CHECKSUM_WORD, mkWord 0, mkWord 0, mkWord 0]
      DEFAULT_MAX_DECODING_WORDS =
      Except.error (PyError.invalidWord CHECKSUM_WORD) ∧
    decode wl65536 [PADDING_WORD, mkWord 0] DEFAULT_MAX_DECODING_WORDS =
      Except.error (PyError.invalidWord PADDING_WORD) ∧
    decode wl65536 [mkWord 0, PADDING_WORD] DEFAULT_MAX_DECODING_WORDS =
      Except.ok [wl65536.indexOf (mkWord 0) % 256] :=
  C5_positional_markers wl65536 (mkWord 0) wl65536_length
    check_not_mem_wl65536 null_not_mem_wl65536 wl65536_lower
    (mkWord_mem (by norm_num))

/-- C6 (confirmed): with the checksum flag set, the CRC32 is computed over
the original unpadded payload, and the output ends with the checksum marker
followed by the table word for the low 16 bits of the checksum and then the
word for the high 16 bits (each half packed little-endian, i.e. the word
index *is* the half's value). -/
theorem C6_checksum_structure (wl : List String) (data : List Nat)
    (hlen : wl.length = WORDLIST_SIZE) (hnd : wl.Nodup)
    (hdata : ∀ x ∈ data, x < 256)
    (hmax : data.length ≤ DEFAULT_MAX_ENCODING_BYTES) :
    ∃ dws, chunksToWords wl (padData data) = Except.ok dws ∧
      encode wl data true DEFAULT_MAX_ENCODING_BYTES =
        Except.ok (dws ++
          (if data.length % 2 = 1 then [PADDING_WORD] else []) ++
          [CHECKSUM_WORD, wl.getD (_crc32 data % 65536) "",
           wl.getD (_crc32 data / 65536) ""]) := by
  obtain ⟨ws, hcw, -, -, -⟩ :=
    chunks_words_roundtrip wl hlen hnd (padData data) (padData_bytes hdata)
      (padData_length_even data)
  have hckb : _crc32 data < 4294967296 := Nat.mod_lt _ (by norm_num)
  have hclo : _chunk_to_word wl (_crc32 data % 256) (_crc32 data / 256 % 256) =
      Except.ok (wl.getD (_crc32 data % 65536) "") := by
    rw [chunk_to_word_getD wl hlen (by omega) (by omega)]
    rw [show _bytes_to_int (_crc32 data % 256) (_crc32 data / 256 % 256) =
      _crc32 data % 65536 from by unfold _bytes_to_int; omega]
  have hchi : _chunk_to_word wl (_crc32 data / 65536 % 256)
      (_crc32 data / 16777216 % 256) =
      Except.ok (wl.getD (_crc32 data / 65536) "") := by
    rw [chunk_to_word_getD wl hlen (by omega) (by omega)]
    rw [show _bytes_to_int (_crc32 data / 65536 % 256)
      (_crc32 data / 16777216 % 256) = _crc32 data / 65536 from by
      unfold _bytes_to_int; omega]
  refine ⟨ws, hcw, ?_⟩
  unfold encode
  rw [if_neg (by omega), hcw]
  by_cases hp : data.length % 2 = 1
  · have hdl : (padData data).dropLast = data := by
      have h := padData_unpad data
      rwa [if_pos hp] at h
    simp only [if_pos hp, if_true, hdl, hclo, hchi]
  · have hpd : padData data = data := by
      unfold padData
      rw [if_neg hp]
    simp only [if_neg hp, if_true, hpd, hclo, hchi, List.append_nil]

/-- Witness for C6 at the odd one-byte payload `[1]`. -/
theorem C6_checksum_structure_witness :
    ∃ dws, chunksToWords wl65536 (padData [1]) = Except.ok dws ∧
      encode wl65536 [1] true DEFAULT_MAX_ENCODING_BYTES =
        Except.ok (dws ++
          (if ([1] : List Nat).length % 2 = 1 then [PADDING_WORD] else []) ++
          [CHECKSUM_WORD, wl65536.getD (_crc32 [1] % 65536) "",
           wl65536.getD (_crc32 [1] / 65536) ""]) :=
  C6_checksum_structure wl65536 [1] wl65536_length wl65536_nodup
    (by decide) (by decide)

/-- C7 (confirmed): without checksum, `encode` emits exactly the data words
followed by the optional padding sentinel; the `k`-th data word is the
table entry whose index is `first_byte + 256 * second_byte` of the `k`-th
2-byte chunk of the (padded) payload, in payload order. -/
theorem C7_token_indexing (wl : List String) (data : List Nat)
    (hlen : wl.length = WORDLIST_SIZE) (hnd : wl.Nodup)
    (hdata : ∀ x ∈ data, x < 256)
    (hmax : data.length ≤ DEFAULT_MAX_ENCODING_BYTES) :
    ∃ dws, encode wl data false DEFAULT_MAX_ENCODING_BYTES =
        Except.ok (dws ++
          (if data.length % 2 = 1 then [PADDING_WORD] else [])) ∧
      2 * dws.length = (padData data).length ∧
      (∀ k, k < dws.length → dws.getD k "" =
        wl.getD (_bytes_to_int ((padData data).getD (2 * k) 0)
          ((padData data).getD (2 * k + 1) 0)) "") := by
  obtain ⟨ws, hcw, -, hwslen, -⟩ :=
    chunks_words_roundtrip wl hlen hnd (padData data) (padData_bytes hdata)
      (padData_length_even data)
  refine ⟨ws, ?_, hwslen, chunksToWords_getD wl (padData data) ws hcw⟩
  unfold encode
  rw [if_neg (by omega), hcw]
  by_cases hp : data.length % 2 = 1
  · simp [hp]
  · simp [hp]

/-- Witness for C7 at the two-byte payload `[7, 1]` (no padding). -/
theorem C7_token_indexing_witness :
    ∃ dws, encode wl65536 [7, 1] false DEFAULT_MAX_ENCODING_BYTES =
        Except.ok (dws ++
          (if ([7, 1] : List Nat).length % 2 = 1 then [PADDING_WORD] else [])) ∧
      2 * dws.length = (padData [7, 1]).length ∧
      (∀ k, k < dws.length → dws.getD k "" =
        wl65536.getD (_bytes_to_int ((padData [7, 1]).getD (2 * k) 0)
          ((padData [7, 1]).getD (2 * k + 1) 0)) "") :=
  C7_token_indexing wl65536 [7, 1] wl65536_length wl65536_nodup
    (by decide) (by decide)

/-- C8 (confirmed): a data-position token absent from the table makes
`decode` fail with that token's invalid-word error, for *any* trailing
checksum block — the data tokens are resolved through the table before the
checksum words are even unpacked, so `InvalidWord` takes precedence over
`ChecksumMismatch`. -/
theorem C8_invalid_word_precedence (wl : List String)
    (hlen : wl.length = WORDLIST_SIZE)
    (d1 : List String) (w : String) (d2 : List String) (c0 c1 : String)
    (hmem : ∀ u ∈ d1, u ∈ wl) (hw : w ∉ wl)
    (hlowall : ∀ u ∈ d1 ++ w :: d2 ++ [CHECKSUM_WORD, c0, c1], pyLower u = u)
    (hlast : (d1 ++ w :: d2).getLast? ≠ some PADDING_WORD)
    (hcount : (d1 ++ w :: d2 ++ [CHECKSUM_WORD, c0, c1]).length ≤
      DEFAULT_MAX_DECODING_WORDS) :
    decode wl (d1 ++ w :: d2 ++ [CHECKSUM_WORD, c0, c1])
      DEFAULT_MAX_DECODING_WORDS = Except.error (PyError.invalidWord w) := by
  have hDne : (d1 ++ w :: d2 : List String) ≠ [] := by simp
  have hmap' : (d1 ++ w :: d2 ++ [CHECKSUM_WORD, c0, c1]).map pyLower =
      (d1 ++ w :: d2) ++ [CHECKSUM_WORD, c0, c1] := by
    rw [map_pyLower_fixed hlowall]
  have hsplit' := checksumSplit_append (d1 ++ w :: d2) hDne c0 c1
  obtain ⟨u, hu⟩ : ∃ u, (d1 ++ w :: d2 : List String).getLast? = some u :=
    ⟨(d1 ++ w :: d2).getLast hDne, List.getLast?_eq_getLast _ hDne⟩
  have hune : ¬(u = PADDING_WORD) := by
    intro he
    apply hlast
    rw [hu, he]
  have hwb := wordsToBytes_invalid wl hlen d1 w d2 hmem hw
  unfold decode
  rw [if_neg (by omega)]
  simp only [hmap', hsplit', hu, if_neg hune, hwb]

/-- Witness for C8: the unknown token "zz" before a checksum block fails as
an invalid word even though the checksum words themselves are garbage. -/
theorem C8_invalid_word_precedence_witness :
    decode wl65536 ([] ++ "zz" :: [] ++ [CHECKSUM_WORD, CHECKSUM_WORD,
      CHECKSUM_WORD]) DEFAULT_MAX_DECODING_WORDS =
      Except.error (PyError.invalidWord "zz") :=
  C8_invalid_word_precedence wl65536 wl65536_length
    [] "zz" [] CHECKSUM_WORD CHECKSUM_WORD
    (by intro u hu; simp at hu)
    (not_mem_wl65536 "zz" (by decide))
    (by
      intro u hu
      simp only [List.nil_append, List.cons_append, List.mem_cons,
        List.not_mem_nil, or_false] at hu
      rcases hu with h | h | h | h <;> rw [h] <;> decide)
    (by decide)
    (by decide)

end HumanEncoding
